import Mathlib

/-!
Verification of the biased spatial sampler and fiber pool of the
simulation_suite repository, as a shallow embedding in Lean 4.

Sources embedded:
* src/stk/stk/geometry/space_partition/biased_position_generator.hpp
* src/stk/stk/thread/fiber_pool.hpp

Conventions of the embedding:
* C++ `double` arithmetic is modelled exactly over the rationals (ℚ) where
  the computations are field operations, and over the reals (ℝ) where the
  source applies the transcendental `std::exp`.
* Geometric primitives (points, BSP distance/classification queries, grid
  traits, point-in-triangle tests, polygon simplicity) live in external
  libraries (geometrix) that are not part of this repository's sources; the
  embedding either models them from the specification (marked in doc
  comments) or keeps them as explicit function parameters, exactly as the
  embedded functions receive them in C++ (member pointers / template
  parameters).
* The unsigned 32-bit decrement of `maxAttempts` is modelled on ℕ with an
  explicit `% 2^32`.
-/

/-- A planar point with rational coordinates, standing for `stk::point2`
(coordinates carry units of meters in the source; the numeric values are
embedded directly). -/
structure Point2 where
  x : ℚ
  y : ℚ
deriving DecidableEq

/-- Result of a solid-BSP point classification, `geometrix::point_in_solid_classification`:
a point is in solid space, in empty space, or on the boundary. -/
inductive point_in_solid_classification where
  | in_solid_space
  | in_empty_space
  | on_boundary
deriving DecidableEq

open point_in_solid_classification

/-- Modelled from the spec: `grid_traits` (external geometrix helper) lays a
regular grid of square cells of side `cell` over a bounding box anchored at
`(xmin, ymin)`; `get_x_index`/`get_y_index` map a coordinate to its cell
index and `get_cell_centroid` returns the centre of cell `(i, j)`. -/
structure grid_traits where
  xmin : ℚ
  ymin : ℚ
  cell : ℚ

def grid_traits.get_x_index (g : grid_traits) (x : ℚ) : ℕ :=
  (Int.floor ((x - g.xmin) / g.cell)).toNat

def grid_traits.get_y_index (g : grid_traits) (y : ℚ) : ℕ :=
  (Int.floor ((y - g.ymin) / g.cell)).toNat

def grid_traits.get_cell_centroid (g : grid_traits) (i j : ℕ) : Point2 :=
  ⟨g.xmin + ((i : ℚ) + 1/2) * g.cell, g.ymin + ((j : ℚ) + 1/2) * g.cell⟩

/-- The doubly nested cell loop `for j in [jmin, jmax] { for i in [imin, imax] }`
shared by `generate_fine_steiner_points` and `biased_position_grid::generate_points`:
the list of visited `(i, j)` index pairs, outer loop on `j`. -/
def cell_list (imin imax jmin jmax : ℕ) : List (ℕ × ℕ) :=
  (List.range (jmax + 1 - jmin)).flatMap fun dj =>
    (List.range (imax + 1 - imin)).map fun di => (imin + di, jmin + dj)

/-- Modelled from the spec: squared Euclidean distance from point `p` to the
segment `[a, b]` (the external BSP's `get_min_distance_sqrd_to_solid` returns
the minimum of this over the input segments, per spec section 8). -/
def seg_dist_sqrd (a b p : Point2) : ℚ :=
  let ux := b.x - a.x
  let uy := b.y - a.y
  let wx := p.x - a.x
  let wy := p.y - a.y
  let den := ux * ux + uy * uy
  let t := if den = 0 then 0 else (wx * ux + wy * uy) / den
  let tc := max 0 (min 1 t)
  let dx := wx - tc * ux
  let dy := wy - tc * uy
  dx * dx + dy * dy

/-!  The weight policy of the mesh-based generator
(`biased_position_generator::triangle_area_distance_weight_policy`).
The source computes with `double` and `std::exp`; it is embedded over ℝ. -/

/-- A triangle handed to the weight policy by the mesh: three vertices with
real coordinates. -/
structure TriangleR where
  v0 : ℝ × ℝ
  v1 : ℝ × ℝ
  v2 : ℝ × ℝ

/-- Modelled from the spec: the area of a triangle (external
`geometrix::get_area`), half the absolute cross product of two edge vectors. -/
noncomputable def get_area (t : TriangleR) : ℝ :=
  |(t.v1.1 - t.v0.1) * (t.v2.2 - t.v0.2) - (t.v2.1 - t.v0.1) * (t.v1.2 - t.v0.2)| / 2

/-- Modelled from the spec: the centroid of a triangle (external
`geometrix::get_centroid`), the vertex average. -/
noncomputable def get_centroid (t : TriangleR) : ℝ × ℝ :=
  ((t.v0.1 + t.v1.1 + t.v2.1) / 3, (t.v0.2 + t.v1.2 + t.v2.2) / 3)

/-- State of `triangle_area_distance_weight_policy`: the stored
`distanceSaturation` member (already squared by the constructor) and the
`attractionStrength` member. -/
structure triangle_area_distance_weight_policy where
  distanceSaturation : ℝ
  attractionStrength : ℝ

/-- The policy constructor: it stores `distanceSaturation * distanceSaturation`
(the constructor's initializer squares its argument) and the attraction
strength verbatim. -/
def mk_weight_policy (distanceSaturation attractionStrength : ℝ) :
    triangle_area_distance_weight_policy :=
  ⟨distanceSaturation * distanceSaturation, attractionStrength⟩

/-- The body of `triangle_area_distance_weight_policy::get_weight`.
`d2solid` stands for the query `pBSP->get_min_distance_sqrd_to_solid`
(a member pointer to external BSP code in the source, received here as a
function). -/
noncomputable def policy_get_weight (d2solid : ℝ × ℝ → ℝ)
    (pol : triangle_area_distance_weight_policy) (t : TriangleR) : ℝ :=
  let area := get_area t
  let distanceSqrd := d2solid (get_centroid t)
  let d2 := max distanceSqrd pol.distanceSaturation
  area * Real.exp (-pol.attractionStrength * d2)

/-- The body of `biased_position_grid::weight_policy::get_weight` over ℝ
(stored saturation already squared, as in the constructor). Used to justify
positivity hypotheses on weight functions in the grid development below:
this weight is an exponential and hence strictly positive. -/
noncomputable def grid_weight (dsatStored attractionStrength d2 : ℝ) : ℝ :=
  Real.exp (-attractionStrength * max d2 dsatStored)

/-!  The steiner-point generator of `biased_position_generator`
(`generate_fine_steiner_points`, lines 161-195). -/

/-- A triangle of the coarse CDT with rational coordinates. -/
structure Triangle2 where
  v0 : Point2
  v1 : Point2
  v2 : Point2
deriving DecidableEq

/-- Modelled from the spec: `get_bounds` of a triangle (external geometrix),
the min/max of the vertex coordinates, as `(xmin, xmax, ymin, ymax)`. -/
def tri_bounds (t : Triangle2) : ℚ × ℚ × ℚ × ℚ :=
  (min t.v0.x (min t.v1.x t.v2.x), max t.v0.x (max t.v1.x t.v2.x),
   min t.v0.y (min t.v1.y t.v2.y), max t.v0.y (max t.v1.y t.v2.y))

/-- The cell index rectangle enumerated for one triangle: grid cells
overlapping the triangle's bounding box. -/
def steiner_cells (g : grid_traits) (t : Triangle2) : List (ℕ × ℕ) :=
  cell_list (g.get_x_index (tri_bounds t).1) (g.get_x_index (tri_bounds t).2.1)
    (g.get_y_index (tri_bounds t).2.2.1) (g.get_y_index (tri_bounds t).2.2.2)

/-- The admission test for a candidate centroid `c` against triangle `t`:
`d2 > 1.0 * square_meters && point_in_triangle(c, trig[0], trig[1], trig[2], cmp)`.
`d2bsp` stands for `bsp.get_min_distance_sqrd_to_solid`, `pit` for the external
tolerance-based `point_in_triangle` predicate. -/
def steiner_admitted (d2bsp : Point2 → ℚ) (pit : Point2 → Triangle2 → Bool)
    (c : Point2) (t : Triangle2) : Bool :=
  decide (1 < d2bsp c) && pit c t

/-- Insertion into the `std::set<point2> results` accumulator (keyed by exact
coordinate): a point already present is not inserted again. Iteration order of
the C++ set is coordinate-sorted; only membership and uniqueness are relied on
by the caller, so the set is embedded as a duplicate-free list. -/
def set_insert (s : List Point2) (p : Point2) : List Point2 :=
  if p ∈ s then s else s ++ [p]

/-- One inner-loop step of `generate_fine_steiner_points`: compute the cell
centroid and insert it into the accumulator when admitted. -/
def steiner_cell_step (d2bsp : Point2 → ℚ) (pit : Point2 → Triangle2 → Bool)
    (g : grid_traits) (t : Triangle2) (res : List Point2) (ij : ℕ × ℕ) : List Point2 :=
  let c := g.get_cell_centroid ij.1 ij.2
  if steiner_admitted d2bsp pit c t then set_insert res c else res

/-- The body of `generate_fine_steiner_points`: for each triangle of the
coarse CDT mesh, visit the grid cells overlapping its bounding box and insert
every admitted cell centroid into the result set. -/
def generate_fine_steiner_points (d2bsp : Point2 → ℚ) (pit : Point2 → Triangle2 → Bool)
    (g : grid_traits) (trigs : List Triangle2) : List Point2 :=
  trigs.foldl
    (fun results t => (steiner_cells g t).foldl (steiner_cell_step d2bsp pit g t) results)
    []

/-!  The `InvalidPolygon` checks of `biased_position_generator::generate_weighted_mesh`
(both overloads). Only these checks throw `std::invalid_argument` in the two
overloads; the rest of the pipeline (CDT, mesh assembly) is external. -/

inductive mesh_error where
  | InvalidPolygon
deriving DecidableEq

/-- The guard `polygon.empty() || !is_polygon_simple(polygon, make_tolerance_policy())`
that precedes a `throw std::invalid_argument`. `simple` stands for the
external `is_polygon_simple` predicate. -/
def polygon_invalid (simple : List Point2 → Bool) (pgon : List Point2) : Bool :=
  pgon.isEmpty || !simple pgon

/-- Error behavior of the holeless `generate_weighted_mesh` overload (used by
construction variants 1 and 3): the outer boundary is validated, after which
no further `InvalidPolygon` throw exists on the path. -/
def generate_weighted_mesh_simple (simple : List Point2 → Bool) (outer : List Point2) :
    Except mesh_error (List Point2) :=
  if polygon_invalid simple outer then Except.error mesh_error.InvalidPolygon
  else Except.ok outer

/-- Error behavior of the holes overload of `generate_weighted_mesh` (variant 2):
the outer boundary is validated first, then each hole in order; the first
invalid hole throws. -/
def generate_weighted_mesh_with_holes (simple : List Point2 → Bool)
    (outer : List Point2) (holes : List (List Point2)) :
    Except mesh_error (List Point2 × List (List Point2)) :=
  if polygon_invalid simple outer then Except.error mesh_error.InvalidPolygon
  else
    match holes.find? (fun h => polygon_invalid simple h) with
    | some _ => Except.error mesh_error.InvalidPolygon
    | none => Except.ok (outer, holes)

/-!  The grid sampler `stk::biased_position_grid`. The boundary BSP `m_tree`
and the attractive BSP are external; their queries are received as function
parameters `tree` (point classification) and `d2bsp` (squared distance to
solid). The weight policy's `get_weight` is received as `wf` (the source
passes the policy object `wp` into `generate_points`); the actual policy is
`grid_weight` above, which is strictly positive. -/

structure biased_position_grid where
  m_halfcell : ℚ
  m_positions : List Point2
  m_integral : List ℚ
deriving DecidableEq

/-- The admission loop of `biased_position_grid::generate_points`: every grid
cell centroid `c` with `d2 > minDistance²` from the attractive BSP and lying
in empty space of the boundary BSP is recorded together with its weight
`wf d2`. Returns the list of `(position, weight)` pairs in loop order. -/
def generate_points (tree : Point2 → point_in_solid_classification)
    (d2bsp : Point2 → ℚ) (wf : ℚ → ℚ) (g : grid_traits)
    (imin imax jmin jmax : ℕ) (m2 : ℚ) : List (Point2 × ℚ) :=
  (cell_list imin imax jmin jmax).filterMap fun ij =>
    let c := g.get_cell_centroid ij.1 ij.2
    let d2 := d2bsp c
    if m2 < d2 ∧ tree c = in_empty_space then some (c, wf d2) else none

/-- The in-place normalization loop of `make_integral`: each weight is
replaced by `last + w / sum` where `last` is the previous stored value. -/
def integral_scan (sum : ℚ) : ℚ → List ℚ → List ℚ
  | _, [] => []
  | last, w :: rest =>
    let w' := last + w / sum
    w' :: integral_scan sum w' rest

/-- The body of `biased_position_grid::make_integral`:
`sum = boost::accumulate(m_integral, 0.0)` followed by the normalization loop.
The source guards `sum > 0` only with `GEOMETRIX_ASSERT`, a debug-build-only
assertion; no exception is thrown and the function always completes. -/
def make_integral (ws : List ℚ) : List ℚ :=
  integral_scan (ws.foldl (· + ·) 0) 0 ws

/-- The grid constructor (single-polygon step): lay a grid over the boundary's
bounding box `(xmin, xmax, ymin, ymax)`, admit cell centroids via
`generate_points`, then normalize the weights with `make_integral`.
`m_halfcell` is `0.5 * granularity`. -/
def grid_construct (tree : Point2 → point_in_solid_classification)
    (d2bsp : Point2 → ℚ) (wf : ℚ → ℚ)
    (xmin xmax ymin ymax cell minDistance : ℚ) : biased_position_grid :=
  let g : grid_traits := ⟨xmin, ymin, cell⟩
  let pts := generate_points tree d2bsp wf g
    (g.get_x_index xmin) (g.get_x_index xmax) (g.get_y_index ymin) (g.get_y_index ymax)
    (minDistance * minDistance)
  { m_halfcell := cell / 2
    m_positions := pts.map Prod.fst
    m_integral := make_integral (pts.map Prod.snd) }

/-- `std::lower_bound(m_integral.begin(), m_integral.end(), rT)` on the sorted
cumulative array: the index of the first entry that is not less than `rT`
(the list's length when no such entry exists, i.e. the `end` iterator). -/
def lower_bound_idx (l : List ℚ) (u : ℚ) : ℕ :=
  l.findIdx fun x => decide (u ≤ x)

/-- `biased_position_grid::generate_random(i, gen)`: jitter the stored
position `m_positions[i]` by `g1 * vx + g2 * vy` where `g1, g2` are draws
from `uniform_real_distribution(-1, 1)` and `vx, vy` are the half-cell axis
vectors. (Out-of-range `i` is guarded only by a debug assertion in the
source; the embedding totalizes the access with a default.) -/
def generate_random (grid : biased_position_grid) (i : ℕ) (g1 g2 : ℚ) : Point2 :=
  let p := grid.m_positions.getD i ⟨0, 0⟩
  ⟨p.x + g1 * grid.m_halfcell, p.y + g2 * grid.m_halfcell⟩

/-- The unsigned 32-bit decrement `--maxAttempts` of the loop condition,
on ℕ with explicit wraparound modulo `2^32`. -/
def u32_dec (ma : ℕ) : ℕ :=
  (ma + (2 ^ 32 - 1)) % 2 ^ 32

/-- The rejection loop of `biased_position_grid::get_random_position`:

    do {
      rT = U(gen);                                   -- draws k
      it = lower_bound(m_integral, rT); i = it - begin;
      p  = generate_random(i, gen);                  -- draws k+1, k+2
    } while (m_tree.point_in_solid_space(p, ...) != in_empty_space
             && --maxAttempts > 0);
    return maxAttempts > 0 ? p : none;

`draws` is the stream of values produced by the generator (three per
iteration); `k` is the cursor into it. `fuel` bounds the recursion depth and
is chosen large enough (`2^32 + 1`) never to be exhausted, since the wrapped
counter reaches zero after at most `2^32` iterations. -/
def grp_loop (tree : Point2 → point_in_solid_classification)
    (grid : biased_position_grid) (draws : ℕ → ℚ) :
    ℕ → ℕ → ℕ → Option Point2
  | 0, _, _ => none
  | fuel + 1, k, ma =>
    let rT := draws k
    let i := lower_bound_idx grid.m_integral rT
    let p := generate_random grid i (draws (k + 1)) (draws (k + 2))
    if tree p = in_empty_space then
      if 0 < ma then some p else none
    else
      let ma' := u32_dec ma
      if 0 < ma' then grp_loop tree grid draws fuel (k + 3) ma' else none

/-- `biased_position_grid::get_random_position(gen, maxAttempts)`. -/
def get_random_position (tree : Point2 → point_in_solid_classification)
    (grid : biased_position_grid) (draws : ℕ → ℚ) (maxAttempts : ℕ) : Option Point2 :=
  grp_loop tree grid draws (2 ^ 32 + 1) 0 maxAttempts

/-- The point produced by the loop body on its `t`-th iteration (0-based):
select an index by binary search on `draws (3t)` and jitter the stored
position with `draws (3t+1)`, `draws (3t+2)`. -/
def attempt_point (grid : biased_position_grid) (draws : ℕ → ℚ) (t : ℕ) : Point2 :=
  generate_random grid (lower_bound_idx grid.m_integral (draws (3 * t)))
    (draws (3 * t + 1)) (draws (3 * t + 2))

/-- The loop condition's rejection test on iteration `t`: the jittered point
is not classified as being in empty space of the boundary BSP. -/
def attempt_rejected (tree : Point2 → point_in_solid_classification)
    (grid : biased_position_grid) (draws : ℕ → ℚ) (t : ℕ) : Prop :=
  tree (attempt_point grid draws t) ≠ in_empty_space

instance (tree : Point2 → point_in_solid_classification)
    (grid : biased_position_grid) (draws : ℕ → ℚ) (t : ℕ) :
    Decidable (attempt_rejected tree grid draws t) := by
  unfold attempt_rejected; infer_instance

/-!  The fiber pool (`stk::thread::fiber_pool`). -/

/-- The pool lifecycle states of the specification's state machine. -/
inductive pool_state where
  | Constructing
  | Running
  | Draining
  | Stopped
deriving DecidableEq

/-- Sequential model of the fiber pool's shutdown-relevant state: the atomic
`m_done` flag, the lifecycle state, and a counter of
`m_shutdownCondition.notify_all()` calls. -/
structure fiber_pool_model where
  done : Bool
  state : pool_state
  notify_count : ℕ
deriving DecidableEq

/-- The body of `fiber_pool::shutdown`:
`m_done.compare_exchange_strong(b=false, true)` — the CAS succeeds exactly
when `done` is `false` — and on success notifies the shutdown condition and
joins every OS thread (each of which joins its fibers, swallowing
exceptions), leaving the pool Stopped. On CAS failure the call is a no-op. -/
def shutdown (p : fiber_pool_model) : fiber_pool_model :=
  if p.done then p
  else { done := true, state := pool_state.Stopped, notify_count := p.notify_count + 1 }

/-- The processor/slot index a spawned OS thread receives: the constructor
passes `i % nCPUS` (with `nCPUS = std::thread::hardware_concurrency()`) for
the `i`-th thread, not `i` itself. -/
def os_thread_index (i nCPUS : ℕ) : ℕ := i % nCPUS

/-- The fiber slots owned by the OS thread with received index `idx`
(`os_thread`, lines 48-51): `[idx * nFibersPerThread, (idx+1) * nFibersPerThread)`. -/
def fiber_slot_set (nFibersPerThread idx : ℕ) : Finset ℕ :=
  Finset.Ico (idx * nFibersPerThread) ((idx + 1) * nFibersPerThread)

/-!  Concrete instances used by witnesses and counterexamples. -/

/-- A boundary BSP classification reporting every point in empty space
(a region whose boundary segments are far away). -/
def const_empty_tree : Point2 → point_in_solid_classification := fun _ => in_empty_space

/-- An attractive-BSP distance query reporting squared distance 1 everywhere. -/
def unit_d2 : Point2 → ℚ := fun _ => 1

/-- A constant weight function (stands for the exponential weight policy at a
fixed distance; any positive value exercises the structural claims). -/
def unit_wf : ℚ → ℚ := fun _ => 1

/-- A concrete one-cell grid: degenerate bounding box at the origin, cell side
1, min distance 1/10; the single admitted centroid is (1/2, 1/2). -/
def witness_grid : biased_position_grid :=
  grid_construct const_empty_tree unit_d2 unit_wf 0 0 0 0 1 (1 / 10)

/-- Endpoint of the attractive segment x = 7/10, 0 ≤ y ≤ 1 used by the C6
counterexample (the spec's strip scenario scaled to one cell). -/
def cex_seg_a : Point2 := ⟨7 / 10, 0⟩

def cex_seg_b : Point2 := ⟨7 / 10, 1⟩

/-- Squared distance to the attractive geometry of the C6 counterexample. -/
def cex_d2 : Point2 → ℚ := fun p => seg_dist_sqrd cex_seg_a cex_seg_b p

/-- Grid of the C6 counterexample: a single cell whose centroid (1/2, 1/2)
lies at distance 1/5 > 1/10 from the attractive segment, so it is admitted. -/
def cex_grid : biased_position_grid :=
  grid_construct const_empty_tree cex_d2 unit_wf 0 0 0 0 1 (1 / 10)

/-- Draw stream of the counterexamples: u = 0 selects index 0; the jitter
draws (2/5, 0) move the sampled point by (1/5, 0) onto x = 7/10. -/
def cex_draws : ℕ → ℚ := fun k => if k = 1 then 2 / 5 else 0

/-- Boundary BSP classification of the C2 counterexample: points on the
vertical line x = 7/10 lie on a boundary segment (within tolerance), all
other points are in empty space. -/
def cex2_tree : Point2 → point_in_solid_classification :=
  fun p => if p.x = 7 / 10 then on_boundary else in_empty_space

/-- Grid of the C2 counterexample, constructed against the same boundary BSP
that is used during sampling. -/
def cex2_grid : biased_position_grid :=
  grid_construct cex2_tree unit_d2 unit_wf 0 0 0 0 1 (1 / 10)

/-!  Claim theorems: weight formula, shutdown, polygon validation, slots. -/

/-- An exponential weight is strictly positive: this justifies the positivity
hypotheses placed on the abstract weight functions in the grid theorems. -/
theorem grid_weight_pos (s a d : ℝ) : 0 < grid_weight s a d :=
  Real.exp_pos _

/-- C1: for every triangle the mesh weight policy assigns the weight
`area(T) * exp(-attraction_factor * max(d2, d_sat^2))` where `d2` is the
squared distance from the triangle's centroid to the attractive BSP and
`d_sat` is the `distance_saturation` constructor argument. -/
theorem c1_triangle_weight_formula (d2solid : ℝ × ℝ → ℝ)
    (distanceSaturation attractionFactor : ℝ) (t : TriangleR) :
    policy_get_weight d2solid (mk_weight_policy distanceSaturation attractionFactor) t =
      get_area t *
        Real.exp (-attractionFactor *
          max (d2solid (get_centroid t)) (distanceSaturation * distanceSaturation)) := rfl

/-- C3 (code bug witness): with an attractive BSP at distance 0 everywhere
(every candidate cell within `min_distance`), no cell is admitted, the total
effective weight is `0`, yet `grid_construct` completes and returns a grid
with empty position and integral arrays instead of failing with a
`ZeroTotalWeight` domain error: the source guards `sum > 0.0` only with the
debug-build-only `GEOMETRIX_ASSERT` and throws nothing. -/
theorem c3_zero_total_weight_construction_completes :
    grid_construct (fun _ => in_empty_space) (fun _ => (0 : ℚ)) (fun _ => 1)
        0 0 0 0 1 (1 / 10) =
      { m_halfcell := 1 / 2, m_positions := [], m_integral := [] } ∧
    make_integral [] = [] ∧ ([] : List ℚ).foldl (· + ·) 0 = 0 :=
  of_decide_eq_true (by with_unfolding_all rfl)

/-- C4: the first `shutdown` call CAS-es `done` from false to true, notifies
the shutdown condition and leaves the pool Stopped; a call that observes
`done` already true is a no-op; hence a second `shutdown` changes nothing and
the pool ends Stopped. (The hypothesis records the reachable-state invariant
that a pool whose `done` flag is set has already completed a shutdown.) -/
theorem c4_shutdown_idempotent (p : fiber_pool_model)
    (hinv : p.done = true → p.state = pool_state.Stopped) :
    (p.done = false →
      (shutdown p).done = true ∧
      (shutdown p).notify_count = p.notify_count + 1 ∧
      (shutdown p).state = pool_state.Stopped) ∧
    (p.done = true → shutdown p = p) ∧
    shutdown (shutdown p) = shutdown p ∧
    (shutdown (shutdown p)).state = pool_state.Stopped := by
  cases hp : p.done with
  | false => simp [shutdown, hp]
  | true => simp [shutdown, hp, hinv hp]

/-- Witness for C4 on a concrete running pool. -/
theorem c4_witness :
    shutdown (shutdown ⟨false, pool_state.Running, 0⟩) =
      shutdown ⟨false, pool_state.Running, 0⟩ ∧
    (shutdown (shutdown ⟨false, pool_state.Running, 0⟩)).state = pool_state.Stopped :=
  (c4_shutdown_idempotent ⟨false, pool_state.Running, 0⟩ (by simp)).2.2

/-- The validation guard fires exactly on an empty or non-simple polygon. -/
theorem polygon_invalid_iff (simple : List Point2 → Bool) (pgon : List Point2) :
    polygon_invalid simple pgon = true ↔ pgon = [] ∨ simple pgon = false := by
  simp [polygon_invalid, List.isEmpty_iff, Bool.not_eq_true']

/-- C5: every construction variant raises `InvalidPolygon` exactly when the
outer boundary is empty or non-simple or (in the holes variant) some hole is
empty or non-simple; with a non-empty simple boundary and holes the error is
not raised. Variants 1 and 3 validate through the holeless overload, variant
2 through the holes overload. -/
theorem c5_invalid_polygon_iff (simple : List Point2 → Bool) (outer : List Point2)
    (holes : List (List Point2)) :
    (generate_weighted_mesh_simple simple outer = Except.error mesh_error.InvalidPolygon ↔
      outer = [] ∨ simple outer = false) ∧
    (generate_weighted_mesh_with_holes simple outer holes =
        Except.error mesh_error.InvalidPolygon ↔
      outer = [] ∨ simple outer = false ∨ ∃ h ∈ holes, h = [] ∨ simple h = false) := by
  constructor
  · rw [← polygon_invalid_iff]
    unfold generate_weighted_mesh_simple
    by_cases hv : polygon_invalid simple outer = true <;> simp [hv]
  · unfold generate_weighted_mesh_with_holes
    by_cases hv : polygon_invalid simple outer = true
    · rw [if_pos hv]
      rcases (polygon_invalid_iff simple outer).mp hv with h | h
      · exact iff_of_true rfl (Or.inl h)
      · exact iff_of_true rfl (Or.inr (Or.inl h))
    · rw [if_neg hv]
      have houter : ¬(outer = [] ∨ simple outer = false) :=
        fun h => hv ((polygon_invalid_iff simple outer).mpr h)
      cases hf : holes.find? (fun h => polygon_invalid simple h) with
      | some h =>
        have hmem := List.mem_of_find?_eq_some hf
        have hpi := List.find?_some hf
        exact iff_of_true rfl
          (Or.inr (Or.inr ⟨h, hmem, (polygon_invalid_iff simple h).mp hpi⟩))
      | none =>
        have hnone := List.find?_eq_none.mp hf
        apply iff_of_false
        · intro h
          simp at h
        · rintro (h | h | ⟨h, hmem, hh⟩)
          · exact houter (Or.inl h)
          · exact houter (Or.inr h)
          · exact hnone h hmem ((polygon_invalid_iff simple h).mpr hh)

/-- C9: the fiber slot ranges owned by the spawned OS threads are pairwise
disjoint and cover all `nFibersPerThread * nOSThreads` slots exactly when
`nOSThreads <= hardware_concurrency`: the constructor passes `i % nCPUS`, so
with more OS threads than CPUs two threads receive the same index and share
(and double-join) the same slots while other slots are never launched. -/
theorem c9_fiber_slots (nF nOS nCPUS : ℕ) (hF : 0 < nF) (hOS : 2 ≤ nOS)
    (hC : 0 < nCPUS) :
    ((∀ i ∈ Finset.range nOS, ∀ j ∈ Finset.range nOS, i ≠ j →
        Disjoint (fiber_slot_set nF (os_thread_index i nCPUS))
          (fiber_slot_set nF (os_thread_index j nCPUS))) ∧
      (Finset.range nOS).biUnion (fun i => fiber_slot_set nF (os_thread_index i nCPUS)) =
        Finset.range (nF * nOS)) ↔
    nOS ≤ nCPUS := by
  constructor
  · rintro ⟨hdisj, -⟩
    by_contra hlt
    push_neg at hlt
    have h0 : 0 ∈ Finset.range nOS := Finset.mem_range.mpr (by omega)
    have hc : nCPUS ∈ Finset.range nOS := Finset.mem_range.mpr hlt
    have hne : (0 : ℕ) ≠ nCPUS := by omega
    have hd := hdisj 0 h0 nCPUS hc hne
    rw [os_thread_index, os_thread_index, Nat.zero_mod, Nat.mod_self] at hd
    have : (0 : ℕ) ∈ fiber_slot_set nF 0 := by
      rw [fiber_slot_set, Finset.mem_Ico]
      omega
    exact absurd (Finset.disjoint_left.mp hd this this) (fun h => h)
  · intro hle
    have hmod : ∀ i, i ∈ Finset.range nOS → os_thread_index i nCPUS = i := fun i hi =>
      Nat.mod_eq_of_lt (lt_of_lt_of_le (Finset.mem_range.mp hi) hle)
    constructor
    · intro i hi j hj hij
      rw [hmod i hi, hmod j hj]
      rw [Finset.disjoint_left]
      intro m hm1 hm2
      rw [fiber_slot_set, Finset.mem_Ico] at hm1 hm2
      rcases Nat.lt_or_ge i j with hij2 | hij2
      · have : (i + 1) * nF ≤ j * nF := Nat.mul_le_mul_right nF hij2
        omega
      · have hji : j < i := by omega
        have : (j + 1) * nF ≤ i * nF := Nat.mul_le_mul_right nF hji
        omega
    · ext m
      simp only [Finset.mem_biUnion, Finset.mem_range]
      constructor
      · rintro ⟨i, hi, hm⟩
        rw [hmod i (Finset.mem_range.mpr hi), fiber_slot_set, Finset.mem_Ico] at hm
        have hle2 : (i + 1) * nF ≤ nOS * nF := Nat.mul_le_mul_right nF (by omega)
        rw [Nat.mul_comm]
        omega
      · intro hm
        rw [Nat.mul_comm] at hm
        have hdiv : m / nF < nOS := (Nat.div_lt_iff_lt_mul hF).mpr hm
        refine ⟨m / nF, hdiv, ?_⟩
        rw [hmod (m / nF) (Finset.mem_range.mpr hdiv), fiber_slot_set, Finset.mem_Ico]
        exact ⟨Nat.div_mul_le_self m nF, (Nat.div_lt_iff_lt_mul hF).mp (Nat.lt_succ_self _)⟩

/-- Witness for C9 at a concrete configuration (2 fibers per thread, 2 OS
threads, 2 CPUs). -/
theorem c9_witness :
    ((∀ i ∈ Finset.range 2, ∀ j ∈ Finset.range 2, i ≠ j →
        Disjoint (fiber_slot_set 2 (os_thread_index i 2))
          (fiber_slot_set 2 (os_thread_index j 2))) ∧
      (Finset.range 2).biUnion (fun i => fiber_slot_set 2 (os_thread_index i 2)) =
        Finset.range (2 * 2)) ↔
    2 ≤ 2 :=
  c9_fiber_slots 2 2 2 (by decide) (by decide) (by decide)

/-!  Claim C7: characterization of the admitted Steiner point set. -/

theorem mem_set_insert (s : List Point2) (p q : Point2) :
    q ∈ set_insert s p ↔ q ∈ s ∨ q = p := by
  unfold set_insert
  by_cases h : p ∈ s
  · rw [if_pos h]
    exact ⟨Or.inl, fun hq => hq.elim id (fun e => e ▸ h)⟩
  · rw [if_neg h]
    simp

theorem nodup_set_insert (s : List Point2) (p : Point2) (h : s.Nodup) :
    (set_insert s p).Nodup := by
  unfold set_insert
  by_cases hp : p ∈ s
  · rw [if_pos hp]; exact h
  · rw [if_neg hp]
    simp [List.nodup_append, h, hp]

theorem steiner_admitted_iff (d2bsp : Point2 → ℚ) (pit : Point2 → Triangle2 → Bool)
    (c : Point2) (t : Triangle2) :
    steiner_admitted d2bsp pit c t = true ↔ 1 < d2bsp c ∧ pit c t = true := by
  simp [steiner_admitted]

theorem mem_steiner_inner_foldl (d2bsp : Point2 → ℚ) (pit : Point2 → Triangle2 → Bool)
    (g : grid_traits) (t : Triangle2) :
    ∀ (cells : List (ℕ × ℕ)) (init : List Point2) (c : Point2),
      c ∈ cells.foldl (steiner_cell_step d2bsp pit g t) init ↔
        c ∈ init ∨ ∃ ij ∈ cells, c = g.get_cell_centroid ij.1 ij.2 ∧
          steiner_admitted d2bsp pit c t = true := by
  intro cells
  induction cells with
  | nil => simp
  | cons ij rest ih =>
    intro init c
    rw [List.foldl_cons, ih]
    have hstep : c ∈ steiner_cell_step d2bsp pit g t init ij ↔
        c ∈ init ∨ (c = g.get_cell_centroid ij.1 ij.2 ∧
          steiner_admitted d2bsp pit c t = true) := by
      unfold steiner_cell_step
      by_cases ha : steiner_admitted d2bsp pit (g.get_cell_centroid ij.1 ij.2) t = true
      · simp only [ha, if_pos, mem_set_insert]
        constructor
        · rintro (hc | rfl)
          · exact Or.inl hc
          · exact Or.inr ⟨rfl, ha⟩
        · rintro (hc | ⟨rfl, -⟩)
          · exact Or.inl hc
          · exact Or.inr rfl
      · rw [if_neg ha]
        constructor
        · exact Or.inl
        · rintro (hc | ⟨rfl, hadm⟩)
          · exact hc
          · exact absurd hadm ha
    rw [hstep]
    simp only [List.mem_cons]
    constructor
    · rintro ((hc | hc) | ⟨ij', hij', hc⟩)
      · exact Or.inl hc
      · exact Or.inr ⟨ij, Or.inl rfl, hc⟩
      · exact Or.inr ⟨ij', Or.inr hij', hc⟩
    · rintro (hc | ⟨ij', hij' | hij', hc⟩)
      · exact Or.inl (Or.inl hc)
      · exact Or.inl (Or.inr (hij' ▸ hc))
      · exact Or.inr ⟨ij', hij', hc⟩

theorem nodup_steiner_inner_foldl (d2bsp : Point2 → ℚ) (pit : Point2 → Triangle2 → Bool)
    (g : grid_traits) (t : Triangle2) :
    ∀ (cells : List (ℕ × ℕ)) (init : List Point2), init.Nodup →
      (cells.foldl (steiner_cell_step d2bsp pit g t) init).Nodup := by
  intro cells
  induction cells with
  | nil => intro init h; simpa using h
  | cons ij rest ih =>
    intro init h
    rw [List.foldl_cons]
    apply ih
    unfold steiner_cell_step
    by_cases ha : steiner_admitted d2bsp pit (g.get_cell_centroid ij.1 ij.2) t = true
    · rw [if_pos ha]; exact nodup_set_insert _ _ h
    · rw [if_neg ha]; exact h

theorem mem_steiner_outer_foldl (d2bsp : Point2 → ℚ) (pit : Point2 → Triangle2 → Bool)
    (g : grid_traits) :
    ∀ (trigs : List Triangle2) (init : List Point2) (c : Point2),
      c ∈ trigs.foldl
          (fun results t => (steiner_cells g t).foldl (steiner_cell_step d2bsp pit g t) results)
          init ↔
        c ∈ init ∨ ∃ t ∈ trigs, ∃ ij ∈ steiner_cells g t,
          c = g.get_cell_centroid ij.1 ij.2 ∧ steiner_admitted d2bsp pit c t = true := by
  intro trigs
  induction trigs with
  | nil => simp
  | cons t rest ih =>
    intro init c
    rw [List.foldl_cons, ih, mem_steiner_inner_foldl]
    simp only [List.mem_cons]
    constructor
    · rintro ((hc | ⟨ij, hij, hc⟩) | ⟨t', ht', hrest⟩)
      · exact Or.inl hc
      · exact Or.inr ⟨t, Or.inl rfl, ij, hij, hc⟩
      · exact Or.inr ⟨t', Or.inr ht', hrest⟩
    · rintro (hc | ⟨t', ht' | ht', hrest⟩)
      · exact Or.inl (Or.inl hc)
      · exact Or.inl (Or.inr (ht' ▸ hrest))
      · exact Or.inr ⟨t', ht', hrest⟩

theorem nodup_steiner_outer_foldl (d2bsp : Point2 → ℚ) (pit : Point2 → Triangle2 → Bool)
    (g : grid_traits) :
    ∀ (trigs : List Triangle2) (init : List Point2), init.Nodup →
      (trigs.foldl
        (fun results t => (steiner_cells g t).foldl (steiner_cell_step d2bsp pit g t) results)
        init).Nodup := by
  intro trigs
  induction trigs with
  | nil => intro init h; simpa using h
  | cons t rest ih =>
    intro init h
    rw [List.foldl_cons]
    exact ih _ (nodup_steiner_inner_foldl d2bsp pit g t _ init h)

/-- C7: a point is in the steiner result exactly when it is the centroid of a
visited grid cell of some coarse-CDT triangle, lies inside that triangle
under tolerance, and is at squared distance greater than 1 square meter from
the attractive BSP; and the result, accumulated through the coordinate-keyed
set, contains no duplicates. -/
theorem c7_steiner_points (d2bsp : Point2 → ℚ) (pit : Point2 → Triangle2 → Bool)
    (g : grid_traits) (trigs : List Triangle2) :
    (∀ c, c ∈ generate_fine_steiner_points d2bsp pit g trigs ↔
      ∃ t ∈ trigs, ∃ ij ∈ steiner_cells g t,
        c = g.get_cell_centroid ij.1 ij.2 ∧ 1 < d2bsp c ∧ pit c t = true) ∧
    (generate_fine_steiner_points d2bsp pit g trigs).Nodup := by
  constructor
  · intro c
    unfold generate_fine_steiner_points
    rw [mem_steiner_outer_foldl]
    simp only [List.not_mem_nil, false_or, steiner_admitted_iff]
  · unfold generate_fine_steiner_points
    exact nodup_steiner_outer_foldl d2bsp pit g trigs [] List.nodup_nil

/-!  The normalized cumulative array (`make_integral`) and the admitted-cell
characterization of `generate_points`, leading to claim C8. -/

theorem integral_scan_length (s : ℚ) :
    ∀ (ws : List ℚ) (a : ℚ), (integral_scan s a ws).length = ws.length := by
  intro ws
  induction ws with
  | nil => intro a; rfl
  | cons w rest ih => intro a; simp [integral_scan, ih]

theorem make_integral_length (ws : List ℚ) : (make_integral ws).length = ws.length :=
  integral_scan_length _ ws 0

theorem foldl_add_shift : ∀ (l : List ℚ) (a b : ℚ),
    l.foldl (· + ·) (a + b) = a + l.foldl (· + ·) b := by
  intro l
  induction l with
  | nil => intro a b; rfl
  | cons w rest ih =>
    intro a b
    rw [List.foldl_cons, List.foldl_cons, add_assoc, ih]

theorem foldl_add_eq (l : List ℚ) (a : ℚ) :
    l.foldl (· + ·) a = a + l.foldl (· + ·) 0 := by
  have h := foldl_add_shift l a 0
  rw [add_zero] at h
  exact h

theorem integral_scan_getLast (s : ℚ) :
    ∀ (ws : List ℚ) (a : ℚ), ws ≠ [] →
      (integral_scan s a ws).getLast? = some (a + ws.foldl (· + ·) 0 / s) := by
  intro ws
  induction ws with
  | nil => intro a h; exact absurd rfl h
  | cons w rest ih =>
    intro a _
    cases rest with
    | nil =>
      show ((a + w / s) :: []).getLast? = some (a + [w].foldl (· + ·) 0 / s)
      simp
    | cons w2 rest2 =>
      have hne : w2 :: rest2 ≠ [] := List.cons_ne_nil w2 rest2
      have hexp : integral_scan s a (w :: w2 :: rest2) =
          (a + w / s) :: (a + w / s + w2 / s) ::
            integral_scan s (a + w / s + w2 / s) rest2 := rfl
      have hexp2 : integral_scan s (a + w / s) (w2 :: rest2) =
          (a + w / s + w2 / s) :: integral_scan s (a + w / s + w2 / s) rest2 := rfl
      rw [hexp, List.getLast?_cons_cons, ← hexp2, ih (a + w / s) hne]
      have hY : (w :: w2 :: rest2).foldl (· + ·) 0 =
          w + (w2 :: rest2).foldl (· + ·) 0 := by
        rw [List.foldl_cons, zero_add]
        exact foldl_add_eq _ w
      rw [hY, add_div, ← add_assoc]

theorem integral_scan_chain (s : ℚ) :
    ∀ (ws : List ℚ) (a : ℚ), (∀ w ∈ ws, 0 ≤ w / s) →
      List.Chain' (· ≤ ·) (a :: integral_scan s a ws) := by
  intro ws
  induction ws with
  | nil =>
    intro a _
    show List.Chain' (· ≤ ·) [a]
    exact List.chain'_singleton a
  | cons w rest ih =>
    intro a h
    show List.Chain' (· ≤ ·) (a :: (a + w / s) :: integral_scan s (a + w / s) rest)
    rw [List.chain'_cons]
    constructor
    · exact le_add_of_nonneg_right (h w (List.mem_cons_self w rest))
    · exact ih (a + w / s) (fun w' hw' => h w' (List.mem_cons_of_mem w hw'))

theorem foldl_add_le : ∀ (l : List ℚ) (a : ℚ), (∀ w ∈ l, 0 ≤ w) →
    a ≤ l.foldl (· + ·) a := by
  intro l
  induction l with
  | nil => intro a _; exact le_refl a
  | cons w rest ih =>
    intro a h
    rw [List.foldl_cons]
    calc a ≤ a + w := le_add_of_nonneg_right (h w (List.mem_cons_self w rest))
    _ ≤ rest.foldl (· + ·) (a + w) := ih (a + w) (fun w' hw' => h w' (List.mem_cons_of_mem w hw'))

theorem foldl_add_pos (l : List ℚ) (hne : l ≠ []) (h : ∀ w ∈ l, 0 < w) :
    0 < l.foldl (· + ·) 0 := by
  cases l with
  | nil => exact absurd rfl hne
  | cons w rest =>
    rw [List.foldl_cons, zero_add]
    calc (0 : ℚ) < w := h w (List.mem_cons_self w rest)
    _ ≤ rest.foldl (· + ·) w := foldl_add_le rest w
        (fun w' hw' => le_of_lt (h w' (List.mem_cons_of_mem w hw')))

/-- Membership characterization of the admitted `(position, weight)` pairs of
`generate_points`. -/
theorem mem_generate_points (tree : Point2 → point_in_solid_classification)
    (d2bsp : Point2 → ℚ) (wf : ℚ → ℚ) (g : grid_traits)
    (imin imax jmin jmax : ℕ) (m2 : ℚ) (pr : Point2 × ℚ) :
    pr ∈ generate_points tree d2bsp wf g imin imax jmin jmax m2 ↔
      ∃ ij ∈ cell_list imin imax jmin jmax,
        pr.1 = g.get_cell_centroid ij.1 ij.2 ∧ m2 < d2bsp pr.1 ∧
        tree pr.1 = in_empty_space ∧ pr.2 = wf (d2bsp pr.1) := by
  unfold generate_points
  rw [List.mem_filterMap]
  constructor
  · rintro ⟨ij, hij, hf⟩
    by_cases hc : m2 < d2bsp (g.get_cell_centroid ij.1 ij.2) ∧
        tree (g.get_cell_centroid ij.1 ij.2) = in_empty_space
    · rw [if_pos hc] at hf
      obtain rfl := Option.some_injective _ hf
      exact ⟨ij, hij, rfl, hc.1, hc.2, rfl⟩
    · rw [if_neg hc] at hf
      exact absurd hf (Option.noConfusion)
  · rintro ⟨ij, hij, hc, hd, ht, hw⟩
    refine ⟨ij, hij, ?_⟩
    rw [if_pos ⟨hc ▸ hd, hc ▸ ht⟩]
    obtain ⟨p1, p2⟩ := pr
    simp only at hc hw
    rw [hc, hw, hc]

/-- Every stored position of a constructed grid is an admitted cell centroid:
its squared distance to the attractive BSP exceeds `minDistance²` and it is
classified in empty space of the boundary BSP. -/
theorem grid_construct_positions (tree : Point2 → point_in_solid_classification)
    (d2bsp : Point2 → ℚ) (wf : ℚ → ℚ) (xmin xmax ymin ymax cell minDistance : ℚ) :
    ∀ c ∈ (grid_construct tree d2bsp wf xmin xmax ymin ymax cell minDistance).m_positions,
      minDistance * minDistance < d2bsp c ∧ tree c = in_empty_space := by
  intro c hc
  unfold grid_construct at hc
  simp only [List.mem_map] at hc
  obtain ⟨pr, hpr, rfl⟩ := hc
  rw [mem_generate_points] at hpr
  obtain ⟨ij, -, -, hd, ht, -⟩ := hpr
  exact ⟨hd, ht⟩

/-- Every weight recorded by a constructed grid is of the form `wf d2`; with a
positive weight function all recorded weights are positive. -/
theorem grid_construct_weights_pos (tree : Point2 → point_in_solid_classification)
    (d2bsp : Point2 → ℚ) (wf : ℚ → ℚ) (xmin xmax ymin ymax cell minDistance : ℚ)
    (hwf : ∀ d, 0 < wf d) :
    ∀ w ∈ (generate_points tree d2bsp wf ⟨xmin, ymin, cell⟩
        ((⟨xmin, ymin, cell⟩ : grid_traits).get_x_index xmin)
        ((⟨xmin, ymin, cell⟩ : grid_traits).get_x_index xmax)
        ((⟨xmin, ymin, cell⟩ : grid_traits).get_y_index ymin)
        ((⟨xmin, ymin, cell⟩ : grid_traits).get_y_index ymax)
        (minDistance * minDistance)).map Prod.snd,
      0 < w := by
  intro w hw
  simp only [List.mem_map] at hw
  obtain ⟨pr, hpr, rfl⟩ := hw
  rw [mem_generate_points] at hpr
  obtain ⟨ij, -, -, -, -, hw2⟩ := hpr
  rw [hw2]
  exact hwf _

/-- Projection of the constructed grid onto its weight list. -/
theorem grid_construct_integral_eq (tree : Point2 → point_in_solid_classification)
    (d2bsp : Point2 → ℚ) (wf : ℚ → ℚ) (xmin xmax ymin ymax cell minDistance : ℚ) :
    (grid_construct tree d2bsp wf xmin xmax ymin ymax cell minDistance).m_integral =
      make_integral ((generate_points tree d2bsp wf ⟨xmin, ymin, cell⟩
        ((⟨xmin, ymin, cell⟩ : grid_traits).get_x_index xmin)
        ((⟨xmin, ymin, cell⟩ : grid_traits).get_x_index xmax)
        ((⟨xmin, ymin, cell⟩ : grid_traits).get_y_index ymin)
        ((⟨xmin, ymin, cell⟩ : grid_traits).get_y_index ymax)
        (minDistance * minDistance)).map Prod.snd) := rfl

/-- Projection of the constructed grid onto its position list. -/
theorem grid_construct_positions_eq (tree : Point2 → point_in_solid_classification)
    (d2bsp : Point2 → ℚ) (wf : ℚ → ℚ) (xmin xmax ymin ymax cell minDistance : ℚ) :
    (grid_construct tree d2bsp wf xmin xmax ymin ymax cell minDistance).m_positions =
      (generate_points tree d2bsp wf ⟨xmin, ymin, cell⟩
        ((⟨xmin, ymin, cell⟩ : grid_traits).get_x_index xmin)
        ((⟨xmin, ymin, cell⟩ : grid_traits).get_x_index xmax)
        ((⟨xmin, ymin, cell⟩ : grid_traits).get_y_index ymin)
        ((⟨xmin, ymin, cell⟩ : grid_traits).get_y_index ymax)
        (minDistance * minDistance)).map Prod.fst := rfl

/-- C8: when construction succeeds (at least one cell admitted; the weight
function is positive, as the exponential weight policy is), the cumulative
array `m_integral` is monotonically non-decreasing, its last entry is exactly
1, and every stored position lies in empty space of the boundary BSP. -/
theorem c8_grid_invariants (tree : Point2 → point_in_solid_classification)
    (d2bsp : Point2 → ℚ) (wf : ℚ → ℚ) (xmin xmax ymin ymax cell minDistance : ℚ)
    (hwf : ∀ d, 0 < wf d)
    (hne : (grid_construct tree d2bsp wf xmin xmax ymin ymax cell minDistance).m_positions
      ≠ []) :
    List.Chain' (· ≤ ·)
      (grid_construct tree d2bsp wf xmin xmax ymin ymax cell minDistance).m_integral ∧
    (grid_construct tree d2bsp wf xmin xmax ymin ymax cell minDistance).m_integral.getLast?
      = some 1 ∧
    ∀ c ∈ (grid_construct tree d2bsp wf xmin xmax ymin ymax cell minDistance).m_positions,
      tree c = in_empty_space := by
  have hwpos :=
    grid_construct_weights_pos tree d2bsp wf xmin xmax ymin ymax cell minDistance hwf
  set ws := (generate_points tree d2bsp wf ⟨xmin, ymin, cell⟩
      ((⟨xmin, ymin, cell⟩ : grid_traits).get_x_index xmin)
      ((⟨xmin, ymin, cell⟩ : grid_traits).get_x_index xmax)
      ((⟨xmin, ymin, cell⟩ : grid_traits).get_y_index ymin)
      ((⟨xmin, ymin, cell⟩ : grid_traits).get_y_index ymax)
      (minDistance * minDistance)).map Prod.snd with hws
  have wsne : ws ≠ [] := by
    intro hnil
    apply hne
    rw [grid_construct_positions_eq]
    rw [hws, List.map_eq_nil_iff] at hnil
    rw [hnil]
    rfl
  have hsum : 0 < ws.foldl (· + ·) 0 := foldl_add_pos ws wsne hwpos
  refine ⟨?_, ?_, ?_⟩
  · rw [grid_construct_integral_eq, ← hws]
    have hch := integral_scan_chain (ws.foldl (· + ·) 0) ws 0
      (fun w hw => div_nonneg (hwpos w hw).le hsum.le)
    exact hch.tail
  · rw [grid_construct_integral_eq, ← hws]
    unfold make_integral
    rw [integral_scan_getLast _ ws 0 wsne, zero_add, div_self hsum.ne']
  · intro c hc
    exact (grid_construct_positions tree d2bsp wf xmin xmax ymin ymax cell minDistance
      c hc).2

/-- Witness for C8 on the concrete one-cell grid. -/
theorem c8_witness :
    List.Chain' (· ≤ ·) witness_grid.m_integral ∧
    witness_grid.m_integral.getLast? = some 1 ∧
    ∀ c ∈ witness_grid.m_positions, const_empty_tree c = in_empty_space :=
  c8_grid_invariants const_empty_tree unit_d2 unit_wf 0 0 0 0 1 (1 / 10)
    (fun _ => one_pos) (of_decide_eq_true (by with_unfolding_all rfl))

/-!  The rejection-loop characterization (claims C2, C6, C10). -/

/-- One unfolding of the loop body at draw cursor `3 * t0`. -/
theorem grp_loop_succ (tree : Point2 → point_in_solid_classification)
    (grid : biased_position_grid) (draws : ℕ → ℚ) (fuel t0 ma : ℕ) :
    grp_loop tree grid draws (fuel + 1) (3 * t0) ma =
      if tree (attempt_point grid draws t0) = in_empty_space then
        if 0 < ma then some (attempt_point grid draws t0) else none
      else
        if 0 < u32_dec ma then grp_loop tree grid draws fuel (3 * t0 + 3) (u32_dec ma)
        else none := rfl

theorem three_succ (t0 : ℕ) : 3 * t0 + 3 = 3 * (t0 + 1) := by ring

theorem u32_dec_one : u32_dec 1 = 0 := by
  unfold u32_dec
  norm_num

theorem u32_dec_succ_succ (m : ℕ) (h : m + 2 < 2 ^ 32) : u32_dec (m + 2) = m + 1 := by
  unfold u32_dec
  have h32 : (2 : ℕ) ^ 32 = 4294967296 := by norm_num
  rw [h32] at h ⊢
  omega

theorem u32_dec_zero : u32_dec 0 = 2 ^ 32 - 1 := by
  unfold u32_dec
  norm_num

/-- Full characterization of the loop for a positive 32-bit attempt budget
`m + 1`: it returns absent exactly when the first `m + 1` attempts are all
rejected, and returns the point of the first accepted attempt otherwise. -/
theorem grp_loop_char (tree : Point2 → point_in_solid_classification)
    (grid : biased_position_grid) (draws : ℕ → ℚ) :
    ∀ (m fuel t0 : ℕ), m + 1 < 2 ^ 32 → m + 1 ≤ fuel →
      ((grp_loop tree grid draws fuel (3 * t0) (m + 1) = none ↔
          ∀ t, t < m + 1 → attempt_rejected tree grid draws (t0 + t)) ∧
        (∀ p, grp_loop tree grid draws fuel (3 * t0) (m + 1) = some p ↔
          ∃ t, t < m + 1 ∧ ¬ attempt_rejected tree grid draws (t0 + t) ∧
            (∀ s, s < t → attempt_rejected tree grid draws (t0 + s)) ∧
            p = attempt_point grid draws (t0 + t))) := by
  intro m
  induction m with
  | zero =>
    intro fuel t0 hlt hfuel
    obtain ⟨f, rfl⟩ : ∃ f, fuel = f + 1 := ⟨fuel - 1, by omega⟩
    rw [grp_loop_succ]
    by_cases hrej : attempt_rejected tree grid draws t0
    · rw [if_neg hrej, u32_dec_one, if_neg (lt_irrefl 0)]
      constructor
      · apply iff_of_true rfl
        intro t ht
        have ht0 : t = 0 := by omega
        subst ht0
        simpa using hrej
      · intro p
        apply iff_of_false (by simp)
        rintro ⟨t, ht, hacc, -, -⟩
        have ht0 : t = 0 := by omega
        subst ht0
        rw [Nat.add_zero] at hacc
        exact hacc hrej
    · have hacc : tree (attempt_point grid draws t0) = in_empty_space := not_not.mp hrej
      rw [if_pos hacc, if_pos (by omega : 0 < 1)]
      constructor
      · apply iff_of_false (by simp)
        intro hall
        have := hall 0 (by omega)
        rw [Nat.add_zero] at this
        exact this hacc
      · intro p
        constructor
        · intro h
          refine ⟨0, by omega, ?_, ?_, ?_⟩
          · rw [Nat.add_zero]
            exact fun hre => hre hacc
          · intro s hs
            exact absurd hs (Nat.not_lt_zero s)
          · rw [Nat.add_zero]
            exact (Option.some.inj h).symm
        · rintro ⟨t, ht, -, -, hp⟩
          have ht0 : t = 0 := by omega
          subst ht0
          rw [Nat.add_zero] at hp
          rw [hp]
  | succ m ih =>
    intro fuel t0 hlt hfuel
    obtain ⟨f, rfl⟩ : ∃ f, fuel = f + 1 := ⟨fuel - 1, by omega⟩
    rw [grp_loop_succ]
    by_cases hrej : attempt_rejected tree grid draws t0
    · rw [if_neg hrej, u32_dec_succ_succ m hlt, if_pos (by omega : 0 < m + 1), three_succ]
      have ihc := ih f (t0 + 1) (by omega) (by omega)
      constructor
      · rw [ihc.1]
        constructor
        · intro hall t ht
          cases t with
          | zero => simpa using hrej
          | succ t' =>
            have h' := hall t' (by omega)
            have heq : t0 + 1 + t' = t0 + (t' + 1) := by omega
            rwa [heq] at h'
        · intro hall t ht
          have heq : t0 + 1 + t = t0 + (t + 1) := by omega
          rw [heq]
          exact hall (t + 1) (by omega)
      · intro p
        rw [ihc.2 p]
        constructor
        · rintro ⟨t, ht, hacc, hprev, hp⟩
          refine ⟨t + 1, by omega, ?_, ?_, ?_⟩
          · have heq : t0 + (t + 1) = t0 + 1 + t := by omega
            rw [heq]
            exact hacc
          · intro s hs
            cases s with
            | zero => simpa using hrej
            | succ s' =>
              have heq : t0 + (s' + 1) = t0 + 1 + s' := by omega
              rw [heq]
              exact hprev s' (by omega)
          · have heq : t0 + (t + 1) = t0 + 1 + t := by omega
            rw [heq]
            exact hp
        · rintro ⟨t, ht, hacc, hprev, hp⟩
          cases t with
          | zero =>
            rw [Nat.add_zero] at hacc
            exact absurd hrej hacc
          | succ t' =>
            refine ⟨t', by omega, ?_, ?_, ?_⟩
            · have heq : t0 + 1 + t' = t0 + (t' + 1) := by omega
              rw [heq]
              exact hacc
            · intro s hs
              have heq : t0 + 1 + s = t0 + (s + 1) := by omega
              rw [heq]
              exact hprev (s + 1) (by omega)
            · have heq : t0 + 1 + t' = t0 + (t' + 1) := by omega
              rw [heq]
              exact hp
    · have hacc : tree (attempt_point grid draws t0) = in_empty_space := not_not.mp hrej
      rw [if_pos hacc, if_pos (by omega : 0 < m + 2)]
      constructor
      · apply iff_of_false (by simp)
        intro hall
        have := hall 0 (by omega)
        rw [Nat.add_zero] at this
        exact this hacc
      · intro p
        constructor
        · intro h
          refine ⟨0, by omega, ?_, ?_, ?_⟩
          · rw [Nat.add_zero]
            exact fun hre => hre hacc
          · intro s hs
            exact absurd hs (Nat.not_lt_zero s)
          · rw [Nat.add_zero]
            exact (Option.some.inj h).symm
        · rintro ⟨t, ht, hacc', hprev, hp⟩
          cases t with
          | zero =>
            rw [Nat.add_zero] at hp
            rw [hp]
          | succ t' =>
            have h0 := hprev 0 (by omega)
            rw [Nat.add_zero] at h0
            exact absurd hacc h0

/-- C2 (amended): for `1 <= maxAttempts < 2^32` on a constructed grid, each
attempt draws `u`, selects the first cumulative entry not less than `u` by
binary search, and jitters the stored position by at most half a cell per
axis (the content of `attempt_point`); the attempt is rejected exactly when
the jittered point is not classified as in empty space of the boundary BSP
(solid space or on the boundary); the sampler returns the point of the first
accepted attempt and returns absent if and only if all `maxAttempts` attempts
are rejected. -/
theorem c2_amended (tree : Point2 → point_in_solid_classification)
    (grid : biased_position_grid) (draws : ℕ → ℚ) (ma : ℕ)
    (h1 : 1 ≤ ma) (h2 : ma < 2 ^ 32) :
    (get_random_position tree grid draws ma = none ↔
      ∀ t, t < ma → attempt_rejected tree grid draws t) ∧
    (∀ p, get_random_position tree grid draws ma = some p ↔
      ∃ t, t < ma ∧ ¬ attempt_rejected tree grid draws t ∧
        (∀ s, s < t → attempt_rejected tree grid draws s) ∧
        p = attempt_point grid draws t) := by
  obtain ⟨m, rfl⟩ : ∃ m, ma = m + 1 := ⟨ma - 1, by omega⟩
  have hg : get_random_position tree grid draws (m + 1) =
      grp_loop tree grid draws (2 ^ 32 + 1) (3 * 0) (m + 1) := rfl
  rw [hg]
  have hc := grp_loop_char tree grid draws m (2 ^ 32 + 1) 0 h2 (by omega)
  simpa only [Nat.zero_add] using hc

/-- Counterexample to C2 as stated: the boundary BSP classifies the jittered
point (7/10, 1/2) as on the boundary, which is not solid space, yet the
sampler rejects it and, with `maxAttempts = 1`, returns absent. Rejection is
therefore not "exactly when the point falls in solid space". -/
theorem c2_counterexample :
    get_random_position cex2_tree cex2_grid cex_draws 1 = none ∧
    cex2_tree (attempt_point cex2_grid cex_draws 0) ≠ in_solid_space :=
  of_decide_eq_true (by with_unfolding_all rfl)

/-- Witness for C2 (amended) on the concrete one-cell grid: the first attempt
is accepted and its jittered point is returned. -/
theorem c2_witness :
    get_random_position const_empty_tree witness_grid (fun _ => 0) 1 =
      some (attempt_point witness_grid (fun _ => 0) 0) :=
  ((c2_amended const_empty_tree witness_grid (fun _ => 0) 1 (by omega) (by norm_num)).2
    (attempt_point witness_grid (fun _ => 0) 0)).mpr
    ⟨0, by omega, fun hre => hre rfl, fun s hs => absurd hs (Nat.not_lt_zero s), rfl⟩

/-- Every point the loop returns is the jittered point of some iteration. -/
theorem grp_loop_some_point (tree : Point2 → point_in_solid_classification)
    (grid : biased_position_grid) (draws : ℕ → ℚ) :
    ∀ (fuel t0 ma : ℕ) (p : Point2),
      grp_loop tree grid draws fuel (3 * t0) ma = some p →
      ∃ t, p = attempt_point grid draws t := by
  intro fuel
  induction fuel with
  | zero =>
    intro t0 ma p h
    exact absurd h (by simp [grp_loop])
  | succ f ih =>
    intro t0 ma p h
    rw [grp_loop_succ] at h
    by_cases hacc : tree (attempt_point grid draws t0) = in_empty_space
    · rw [if_pos hacc] at h
      by_cases hma : 0 < ma
      · rw [if_pos hma] at h
        exact ⟨t0, (Option.some.inj h).symm⟩
      · rw [if_neg hma] at h
        exact absurd h (by simp)
    · rw [if_neg hacc] at h
      by_cases hma : 0 < u32_dec ma
      · rw [if_pos hma, three_succ] at h
        exact ih (t0 + 1) (u32_dec ma) p h
      · rw [if_neg hma] at h
        exact absurd h (by simp)

/-- Index returned by the binary search is in range as soon as some cumulative
entry is at least `u`. -/
theorem lower_bound_idx_lt (l : List ℚ) (u x : ℚ) (hx : x ∈ l) (hux : u ≤ x) :
    lower_bound_idx l u < l.length :=
  List.findIdx_lt_length_of_exists ⟨x, hx, decide_eq_true hux⟩

/-- Last entry of the normalized integral of a successfully constructed grid. -/
theorem grid_construct_last_one (tree : Point2 → point_in_solid_classification)
    (d2bsp : Point2 → ℚ) (wf : ℚ → ℚ) (xmin xmax ymin ymax cell minDistance : ℚ)
    (hwf : ∀ d, 0 < wf d)
    (hne : (grid_construct tree d2bsp wf xmin xmax ymin ymax cell minDistance).m_positions
      ≠ []) :
    (grid_construct tree d2bsp wf xmin xmax ymin ymax cell minDistance).m_integral.getLast?
      = some 1 := by
  have hwpos :=
    grid_construct_weights_pos tree d2bsp wf xmin xmax ymin ymax cell minDistance hwf
  set ws := (generate_points tree d2bsp wf ⟨xmin, ymin, cell⟩
      ((⟨xmin, ymin, cell⟩ : grid_traits).get_x_index xmin)
      ((⟨xmin, ymin, cell⟩ : grid_traits).get_x_index xmax)
      ((⟨xmin, ymin, cell⟩ : grid_traits).get_y_index ymin)
      ((⟨xmin, ymin, cell⟩ : grid_traits).get_y_index ymax)
      (minDistance * minDistance)).map Prod.snd with hws
  have wsne : ws ≠ [] := by
    intro hnil
    apply hne
    rw [grid_construct_positions_eq]
    rw [hws, List.map_eq_nil_iff] at hnil
    rw [hnil]
    rfl
  have hsum : 0 < ws.foldl (· + ·) 0 := foldl_add_pos ws wsne hwpos
  rw [grid_construct_integral_eq, ← hws]
  unfold make_integral
  rw [integral_scan_getLast _ ws 0 wsne, zero_add, div_self hsum.ne']

/-- C6 (amended): every non-absent point returned by the grid sampler is a
jitter — at most half a grid cell per axis — of a stored cell centroid whose
squared distance to the attractive BSP exceeds `minDistance²`. The jittered
point itself is not re-checked against the attractive geometry and may lie
closer than `minDistance`. -/
theorem c6_amended (tree : Point2 → point_in_solid_classification)
    (d2bsp : Point2 → ℚ) (wf : ℚ → ℚ) (xmin xmax ymin ymax cell minDistance : ℚ)
    (draws : ℕ → ℚ) (ma : ℕ)
    (hwf : ∀ d, 0 < wf d) (hcell : 0 ≤ cell)
    (hne : (grid_construct tree d2bsp wf xmin xmax ymin ymax cell minDistance).m_positions
      ≠ [])
    (hu : ∀ t, 0 ≤ draws (3 * t) ∧ draws (3 * t) < 1)
    (hj : ∀ t, |draws (3 * t + 1)| ≤ 1 ∧ |draws (3 * t + 2)| ≤ 1) :
    ∀ p, get_random_position tree
        (grid_construct tree d2bsp wf xmin xmax ymin ymax cell minDistance) draws ma =
        some p →
      ∃ c ∈ (grid_construct tree d2bsp wf xmin xmax ymin ymax cell minDistance).m_positions,
        minDistance * minDistance < d2bsp c ∧
        |p.x - c.x| ≤
          (grid_construct tree d2bsp wf xmin xmax ymin ymax cell minDistance).m_halfcell ∧
        |p.y - c.y| ≤
          (grid_construct tree d2bsp wf xmin xmax ymin ymax cell minDistance).m_halfcell := by
  intro p hp
  set G := grid_construct tree d2bsp wf xmin xmax ymin ymax cell minDistance with hG
  obtain ⟨t, rfl⟩ := grp_loop_some_point tree G draws (2 ^ 32 + 1) 0 ma p hp
  have hlast : G.m_integral.getLast? = some 1 :=
    grid_construct_last_one tree d2bsp wf xmin xmax ymin ymax cell minDistance hwf hne
  have h1mem : (1 : ℚ) ∈ G.m_integral := List.mem_of_getLast?_eq_some hlast
  have hlen : G.m_integral.length = G.m_positions.length := by
    rw [hG, grid_construct_integral_eq, grid_construct_positions_eq, make_integral_length,
      List.length_map, List.length_map]
  have hi : lower_bound_idx G.m_integral (draws (3 * t)) < G.m_integral.length :=
    lower_bound_idx_lt G.m_integral (draws (3 * t)) 1 h1mem (hu t).2.le
  have hi' : lower_bound_idx G.m_integral (draws (3 * t)) < G.m_positions.length := by
    omega
  set i := lower_bound_idx G.m_integral (draws (3 * t)) with hidef
  have hgd : G.m_positions.getD i ⟨0, 0⟩ = G.m_positions.get ⟨i, hi'⟩ := by
    rw [List.getD_eq_getElem?_getD, List.getElem?_eq_getElem hi']
    simp
  have hhalf : G.m_halfcell = cell / 2 := by
    rw [hG]
    rfl
  have hhnn : 0 ≤ G.m_halfcell := by
    rw [hhalf]
    exact div_nonneg hcell (by norm_num)
  have hpx : (attempt_point G draws t).x - (G.m_positions.get ⟨i, hi'⟩).x =
      draws (3 * t + 1) * G.m_halfcell := by
    show (generate_random G i (draws (3 * t + 1)) (draws (3 * t + 2))).x - _ = _
    unfold generate_random
    rw [hgd]
    ring
  have hpy : (attempt_point G draws t).y - (G.m_positions.get ⟨i, hi'⟩).y =
      draws (3 * t + 2) * G.m_halfcell := by
    show (generate_random G i (draws (3 * t + 1)) (draws (3 * t + 2))).y - _ = _
    unfold generate_random
    rw [hgd]
    ring
  refine ⟨G.m_positions.get ⟨i, hi'⟩, List.get_mem G.m_positions i hi', ?_, ?_, ?_⟩
  · exact (grid_construct_positions tree d2bsp wf xmin xmax ymin ymax cell minDistance
      (G.m_positions.get ⟨i, hi'⟩) (List.get_mem G.m_positions i hi')).1
  · rw [hpx, abs_mul, abs_of_nonneg hhnn]
    calc |draws (3 * t + 1)| * G.m_halfcell ≤ 1 * G.m_halfcell :=
          mul_le_mul_of_nonneg_right (hj t).1 hhnn
    _ = G.m_halfcell := one_mul _
  · rw [hpy, abs_mul, abs_of_nonneg hhnn]
    calc |draws (3 * t + 2)| * G.m_halfcell ≤ 1 * G.m_halfcell :=
          mul_le_mul_of_nonneg_right (hj t).2 hhnn
    _ = G.m_halfcell := one_mul _

/-- Counterexample to C6 as stated: on the one-cell grid whose centroid
(1/2, 1/2) lies at distance 1/5 > 1/10 from the attractive segment
x = 7/10, the jitter draws (2/5, 0) move the returned point onto the
segment itself: the sampler returns (7/10, 1/2), at squared distance
0 ≤ (1/10)² from the attractive geometry. -/
theorem c6_counterexample :
    get_random_position const_empty_tree cex_grid cex_draws 1 = some ⟨7 / 10, 1 / 2⟩ ∧
    seg_dist_sqrd cex_seg_a cex_seg_b ⟨7 / 10, 1 / 2⟩ ≤ (1 / 10 : ℚ) * (1 / 10) :=
  of_decide_eq_true (by with_unfolding_all rfl)

/-- Witness for C6 (amended) on the concrete one-cell grid. -/
theorem c6_witness :
    ∃ c ∈ witness_grid.m_positions,
      (1 / 10 : ℚ) * (1 / 10) < unit_d2 c ∧
      |(1 / 2 : ℚ) - c.x| ≤ witness_grid.m_halfcell ∧
      |(1 / 2 : ℚ) - c.y| ≤ witness_grid.m_halfcell := by
  have h := c6_amended const_empty_tree unit_d2 unit_wf 0 0 0 0 1 (1 / 10) (fun _ => 0) 1
    (fun _ => one_pos) (by norm_num)
    (of_decide_eq_true (by with_unfolding_all rfl))
    (fun t => ⟨le_refl 0, by norm_num⟩)
    (fun t => by norm_num)
    ⟨1 / 2, 1 / 2⟩
    (of_decide_eq_true (by with_unfolding_all rfl))
  exact h

/-- C10: with `maxAttempts = 0` the cap is not treated as zero attempts. If
the first jittered point is accepted, the loop exits with the counter still 0
and the post-loop check `maxAttempts > 0` fails, so the sampler returns
absent anyway. If the first point is rejected, the unsigned decrement wraps
to `2^32 - 1` and the loop continues for up to `2^32 - 1` further attempts
(returning the first accepted one) instead of returning absent immediately. -/
theorem c10_zero_max_attempts (tree : Point2 → point_in_solid_classification)
    (grid : biased_position_grid) (draws : ℕ → ℚ) :
    (¬ attempt_rejected tree grid draws 0 →
      get_random_position tree grid draws 0 = none) ∧
    (attempt_rejected tree grid draws 0 →
      ((get_random_position tree grid draws 0 = none ↔
          ∀ t, 1 ≤ t → t < 2 ^ 32 → attempt_rejected tree grid draws t) ∧
        (∀ p, get_random_position tree grid draws 0 = some p ↔
          ∃ t, 1 ≤ t ∧ t < 2 ^ 32 ∧ ¬ attempt_rejected tree grid draws t ∧
            (∀ s, 1 ≤ s → s < t → attempt_rejected tree grid draws s) ∧
            p = attempt_point grid draws t))) := by
  have h32 : (2 : ℕ) ^ 32 = 4294967296 := by norm_num
  have hg : get_random_position tree grid draws 0 =
      grp_loop tree grid draws (2 ^ 32 + 1) (3 * 0) 0 := rfl
  constructor
  · intro hacc'
    have hacc : tree (attempt_point grid draws 0) = in_empty_space := not_not.mp hacc'
    rw [hg, grp_loop_succ, if_pos hacc, if_neg (lt_irrefl 0)]
  · intro hrej
    rw [hg, grp_loop_succ, if_neg hrej, u32_dec_zero,
      if_pos (by norm_num : 0 < 2 ^ 32 - 1), three_succ]
    have hc := grp_loop_char tree grid draws (2 ^ 32 - 2) (2 ^ 32) 1
      (by norm_num) (by norm_num)
    have he : 2 ^ 32 - 2 + 1 = 2 ^ 32 - 1 := by norm_num
    rw [he] at hc
    simp only [Nat.zero_add]
    constructor
    · rw [hc.1]
      constructor
      · intro hall t h1t ht32
        have h' := hall (t - 1) (by omega)
        have heq : 1 + (t - 1) = t := by omega
        rwa [heq] at h'
      · intro hall t ht
        exact hall (1 + t) (by omega) (by omega)
    · intro p
      rw [hc.2 p]
      constructor
      · rintro ⟨t, ht, hacc, hprev, hp⟩
        refine ⟨1 + t, by omega, by omega, hacc, ?_, hp⟩
        intro s h1s hst
        have h' := hprev (s - 1) (by omega)
        have heq : 1 + (s - 1) = s := by omega
        rwa [heq] at h'
      · rintro ⟨t, h1t, ht32, hacc, hprev, hp⟩
        refine ⟨t - 1, by omega, ?_, ?_, ?_⟩
        · have heq : 1 + (t - 1) = t := by omega
          rw [heq]
          exact hacc
        · intro s hs
          exact hprev (1 + s) (by omega) (by omega)
        · have heq : 1 + (t - 1) = t := by omega
          rw [heq]
          exact hp

/-- Witness for C10: on the concrete one-cell grid with an accepting boundary
BSP, `maxAttempts = 0` still returns absent although the first jittered point
is accepted. -/
theorem c10_witness :
    get_random_position const_empty_tree witness_grid (fun _ => 0) 0 = none :=
  (c10_zero_max_attempts const_empty_tree witness_grid (fun _ => 0)).1 (fun hre => hre rfl)
